import Mathlib

/-!
# go_flutter_ffi: the exported surface of `go_library/main.go`

A shallow embedding of the three exported functions `HelloWorld`,
`FreeString` and `AddNumbers`, together with the pieces of the cgo runtime
and of the C library they call (`C.CString`, `C.free`, the `+` of `C.int`).

* `C.int` is a 32-bit signed integer: an `Int` carried with its range.
  Go defines signed overflow through the two's-complement representation,
  so `+` is embedded on the 32-bit patterns, with an explicit `% 2^32`.
* The native heap is a block memory: live allocations are keyed by their
  base address and each holds its bytes. The allocator itself belongs to
  the environment and is a parameter `malloc`; `0` is the null pointer.
-/

namespace GoLibrary

/-! ## 32-bit signed integers (`C.int`) -/

/-- Number of distinct 32-bit patterns, `2^32`. -/
def wordSize : Nat := 4294967296

/-- Smallest magnitude that is no longer a non-negative `C.int`, `2^31`. -/
def signBit : Nat := 2147483648

/-- A `C.int` value: an integer in `[-2^31, 2^31 - 1]`. -/
structure CInt where
  val : Int
  lo : -2147483648 ≤ val
  hi : val < 2147483648

/-- The 32-bit two's-complement pattern of an integer. -/
def toBits (x : Int) : Nat := (x % 4294967296).toNat

/-- The signed reading of a 32-bit pattern. -/
def ofBits (n : Nat) : Int :=
  if n < signBit then (n : Int) else (n : Int) - 4294967296

/-- Go's `+` on `int32`: the patterns are added modulo `2^32` and the
result is read back as a signed value. -/
def CInt.add (a b : CInt) : CInt :=
  ⟨ofBits ((toBits a.val + toBits b.val) % wordSize),
    by unfold ofBits signBit wordSize; split <;> omega,
    by unfold ofBits signBit wordSize; split <;> omega⟩

/-- Source: `func AddNumbers(a, b C.int) C.int { return a + b }`. -/
def AddNumbers (a b : CInt) : CInt := CInt.add a b

/-- The `C.int` zero. -/
def CInt.zero : CInt := ⟨0, by decide, by decide⟩

/-- A way of bracketing a chain of `AddNumbers` calls over given operands. -/
inductive Grouping where
  | leaf (x : CInt)
  | node (l r : Grouping)

/-- The operands of a bracketing, left to right. -/
def Grouping.operands : Grouping → List CInt
  | .leaf x => [x]
  | .node l r => l.operands ++ r.operands

/-- Runs the chain of calls the bracketing describes. -/
def Grouping.eval : Grouping → CInt
  | .leaf x => x
  | .node l r => AddNumbers l.eval r.eval

/-- Right-nested sum of a list of operands, starting from zero. -/
def sumRight (xs : List CInt) : CInt := xs.foldr AddNumbers CInt.zero

/-! ## The native heap -/

/-- A native address; `0` is the null pointer. -/
abbrev Ptr := Nat

/-- A byte, kept as a natural number. -/
abbrev Byte := Nat

/-- The null pointer (`nil` of `*C.char`, `NULL` in C). -/
def NULL : Ptr := 0

/-- The native heap: the live allocations, each keyed by its base address
and holding its bytes. The entry nearest the head is the one in force. -/
structure Heap where
  blocks : List (Ptr × List Byte)
  deriving DecidableEq, Repr

/-- The bytes of the live allocation based at `p`, if there is one. -/
def Heap.lookup (h : Heap) (p : Ptr) : Option (List Byte) := h.blocks.lookup p

/-- Whether `p` is the base of a live allocation. -/
def Heap.live (h : Heap) (p : Ptr) : Bool := (h.lookup p).isSome

/-- Records a new allocation based at `p` with contents `bs`. -/
def Heap.store (h : Heap) (p : Ptr) (bs : List Byte) : Heap := ⟨(p, bs) :: h.blocks⟩

/-- Drops the allocation based at `p`. -/
def Heap.release (h : Heap) (p : Ptr) : Heap := ⟨h.blocks.filter fun e => e.1 != p⟩

/-- Ways a call can fail to return: the cgo runtime aborting the process
because `malloc` gave no memory, and C undefined behaviour. -/
inductive Fault where
  | mallocFailed
  | undefinedBehaviour
  deriving DecidableEq, Repr

/-- The C allocator, a parameter of the embedding: from the heap and the
requested size it gives an address, or `NULL` when it has no memory. -/
abbrev Allocator := Heap → Nat → Ptr

/-- What C guarantees of `malloc`: a non-null result is not the address
of an allocation that is still live. -/
def MallocContract (malloc : Allocator) : Prop :=
  ∀ h n, malloc h n ≠ NULL → h.live (malloc h n) = false

/-- The bytes of a Go string: its UTF-8 encoding. -/
def goBytes (s : String) : List Byte :=
  s.data.flatMap fun c => (String.utf8EncodeChar c).map UInt8.toNat

/-- The cgo runtime's `_cgo_cmalloc`: calls `malloc` and aborts the
process (`runtime: C malloc failed`) on a null result. -/
def cgoMalloc (malloc : Allocator) (n : Nat) (h : Heap) : Except Fault Ptr :=
  if malloc h n = NULL then .error .mallocFailed else .ok (malloc h n)

/-- The cgo helper `C.CString`: allocates `len(s) + 1` bytes with the C
allocator, copies the bytes of `s` and writes a zero after them. -/
def CString (malloc : Allocator) (s : String) (h : Heap) : Except Fault (Ptr × Heap) :=
  match cgoMalloc malloc ((goBytes s).length + 1) h with
  | .error e => .error e
  | .ok p => .ok (p, h.store p (goBytes s ++ [0]))

/-- C's `free`: nothing happens on `NULL`; a live allocation is released;
anything else is undefined behaviour. -/
def free (p : Ptr) (h : Heap) : Except Fault Heap :=
  if p = NULL then .ok h
  else if h.live p then .ok (h.release p)
  else .error .undefinedBehaviour

/-! ## The exported functions -/

/-- Source: `message := "Hello, world from Go!"`. -/
def message : String := "Hello, world from Go!"

/-- Source: `func HelloWorld() *C.char { ...; return C.CString(message) }`. -/
def HelloWorld (malloc : Allocator) (h : Heap) : Except Fault (Ptr × Heap) :=
  CString malloc message h

/-- Source: `func FreeString(str *C.char) { C.free(unsafe.Pointer(str)) }`. -/
def FreeString (str : Ptr) (h : Heap) : Except Fault Heap :=
  free str h

/-! ## Observations made by the host -/

/-- Reads a buffer as a C string: the bytes before the first zero byte.
A buffer without a zero byte has no such reading. -/
def cstringOf (bs : List Byte) : Option (List Byte) :=
  if bs.contains 0 then some (bs.takeWhile fun b => b != 0) else none

/-- Reads the C string held by the live allocation at `p`. -/
def Heap.readCString (h : Heap) (p : Ptr) : Option (List Byte) :=
  (h.lookup p).bind cstringOf

/-- Text of a sequence of ASCII bytes. -/
def asciiText (bs : List Byte) : String := String.mk (bs.map Char.ofNat)

/-- The pointer `p` was returned by `HelloWorld` and has not been released
since: the heap was reached from that call by further `HelloWorld` calls
and by `FreeString` calls on other pointers. -/
inductive Unreleased (malloc : Allocator) (p : Ptr) : Heap → Prop where
  | returned {h0 h1 : Heap} :
      HelloWorld malloc h0 = .ok (p, h1) → Unreleased malloc p h1
  | hello {h h1 : Heap} {q : Ptr} :
      Unreleased malloc p h → HelloWorld malloc h = .ok (q, h1) → Unreleased malloc p h1
  | freeOther {h h1 : Heap} {q : Ptr} :
      Unreleased malloc p h → q ≠ p → FreeString q h = .ok h1 → Unreleased malloc p h1

/-- A concrete allocator: the first address past every live allocation. -/
def bumpMalloc : Allocator :=
  fun h _ => (h.blocks.map fun e => e.1 + e.2.length).foldr max 0 + 1

/-- The empty heap. -/
def Heap.empty : Heap := ⟨[]⟩

/-- An allocator that never has memory. -/
def noMemory : Allocator := fun _ _ => NULL

/-! ## Calls from several host threads

The three functions run to completion on the calling thread and the
library keeps no state of its own, so what several threads do is, for the
library, the order in which their calls take effect: a schedule. The host
keeps each returned pointer in a variable and later passes it back. -/

/-- A call made by the host: `x := HelloWorld()`, `FreeString(x)` for a
host variable `x`, or `AddNumbers(a, b)`. -/
inductive Call where
  | helloWorld (x : Nat)
  | freeString (x : Nat)
  | addNumbers (a b : CInt)

/-- What the host observes of a call: of `HelloWorld` whether the pointer
is non-null and the text it reads from the buffer (the address itself is
the choice of the allocator), of `FreeString` that it returned, and of
`AddNumbers` the sum. -/
inductive Result where
  | buffer (nonNull : Bool) (text : Option (List Byte))
  | released
  | sum (v : CInt)

/-- The pointer held by the host variable `x`; a variable never assigned
holds the null pointer. -/
def ptrOf (vars : List (Nat × Ptr)) (x : Nat) : Ptr := (vars.lookup x).getD NULL

/-- The host side of the boundary: the native heap and the pointers the
host keeps in its variables. -/
structure Host where
  heap : Heap
  vars : List (Nat × Ptr)

/-- One call, run to completion on the current state. -/
def call (malloc : Allocator) (w : Host) : Call → Except Fault (Result × Host)
  | .helloWorld x =>
    match HelloWorld malloc w.heap with
    | .error e => .error e
    | .ok (p, h1) => .ok (.buffer (p != NULL) (h1.readCString p), ⟨h1, (x, p) :: w.vars⟩)
  | .freeString x =>
    match FreeString (ptrOf w.vars x) w.heap with
    | .error e => .error e
    | .ok h1 => .ok (.released, ⟨h1, w.vars⟩)
  | .addNumbers a b => .ok (.sum (AddNumbers a b), w)

/-- Runs a schedule, the calls of all threads in the order in which they
take effect, and collects what each call gave. -/
def run (malloc : Allocator) : Host → List Call → Except Fault (List Result)
  | _, [] => .ok []
  | w, c :: cs =>
    match call malloc w c with
    | .error e => .error e
    | .ok (r, w1) =>
      match run malloc w1 cs with
      | .error e => .error e
      | .ok rs => .ok (r :: rs)

/-- Keeps the observation of a call and forgets the state it leaves. -/
def resultOf : Except Fault (Result × Host) → Except Fault Result
  | .error e => .error e
  | .ok (r, _) => .ok r

/-- The call run alone, from the heap `h` and with no other call around
it; a `FreeString` is run on the buffer of its own `HelloWorld`. -/
def alone (malloc : Allocator) (h : Heap) : Call → Except Fault Result
  | .helloWorld x => resultOf (call malloc ⟨h, []⟩ (.helloWorld x))
  | .freeString x =>
    match call malloc ⟨h, []⟩ (.helloWorld x) with
    | .error e => .error e
    | .ok (_, w1) => resultOf (call malloc w1 (.freeString x))
  | .addNumbers a b => resultOf (call malloc ⟨h, []⟩ (.addNumbers a b))

/-- Every `FreeString` of the schedule is on a variable that holds a
buffer returned by an earlier `HelloWorld` and not released since;
`owned` lists the variables that hold such a buffer at the start. -/
def scheduleOk : List Nat → List Call → Bool
  | _, [] => true
  | owned, .helloWorld x :: cs => scheduleOk (x :: owned.filter fun y => y != x) cs
  | owned, .freeString x :: cs =>
    owned.contains x && scheduleOk (owned.filter fun y => y != x) cs
  | owned, .addNumbers _ _ :: cs => scheduleOk owned cs

/-- The variables in `owned` hold non-null pointers to live buffers with
the greeting, and two of them never hold the same pointer. -/
def Owns (h : Heap) (vars : List (Nat × Ptr)) (owned : List Nat) : Prop :=
  (∀ x ∈ owned, ptrOf vars x ≠ NULL ∧
    h.lookup (ptrOf vars x) = some (goBytes message ++ [0])) ∧
  (∀ x ∈ owned, ∀ y ∈ owned, ptrOf vars x = ptrOf vars y → x = y)

/-! ## Arithmetic of `C.int` -/

theorem CInt.eq_of_val {a b : CInt} (h : a.val = b.val) : a = b := by
  cases a
  cases b
  cases h
  rfl

theorem AddNumbers_val (a b : CInt) :
    (AddNumbers a b).val = (a.val + b.val + 2147483648) % 4294967296 - 2147483648 := by
  have h1 := a.lo
  have h2 := a.hi
  have h3 := b.lo
  have h4 := b.hi
  simp only [AddNumbers, CInt.add, ofBits, toBits, wordSize, signBit]
  split <;> omega

theorem AddNumbers_assoc (a b c : CInt) :
    AddNumbers (AddNumbers a b) c = AddNumbers a (AddNumbers b c) := by
  apply CInt.eq_of_val
  rw [AddNumbers_val, AddNumbers_val, AddNumbers_val a, AddNumbers_val b]
  omega

theorem AddNumbers_zero_left (a : CInt) : AddNumbers CInt.zero a = a := by
  apply CInt.eq_of_val
  have h1 := a.lo
  have h2 := a.hi
  rw [AddNumbers_val]
  simp only [CInt.zero]
  omega

theorem sumRight_append (xs ys : List CInt) :
    sumRight (xs ++ ys) = AddNumbers (sumRight xs) (sumRight ys) := by
  induction xs with
  | nil => simp [sumRight, AddNumbers_zero_left]
  | cons x xs ih =>
    simp only [sumRight, List.cons_append, List.foldr_cons] at ih ⊢
    rw [ih, AddNumbers_assoc]

theorem AddNumbers_zero_right (a : CInt) : AddNumbers a CInt.zero = a := by
  apply CInt.eq_of_val
  have h1 := a.lo
  have h2 := a.hi
  rw [AddNumbers_val]
  simp only [CInt.zero]
  omega

theorem Grouping.eval_eq_sumRight (t : Grouping) : t.eval = sumRight t.operands := by
  induction t with
  | leaf x => simp [Grouping.eval, Grouping.operands, sumRight, AddNumbers_zero_right]
  | node l r ihl ihr =>
    simp only [Grouping.eval, Grouping.operands, sumRight_append, ihl, ihr]
/-! ## The heap operations -/

theorem Heap.lookup_store_same (h : Heap) (p : Ptr) (bs : List Byte) :
    (h.store p bs).lookup p = some bs := by
  simp [Heap.lookup, Heap.store, List.lookup]

theorem Heap.lookup_store_ne (h : Heap) {p q : Ptr} (bs : List Byte) (hq : q ≠ p) :
    (h.store p bs).lookup q = h.lookup q := by
  have hb : (q == p) = false := by simpa using hq
  simp [Heap.lookup, Heap.store, List.lookup, hb]

theorem lookup_filter_same (l : List (Ptr × List Byte)) (p : Ptr) :
    (l.filter fun e => e.1 != p).lookup p = none := by
  induction l with
  | nil => rfl
  | cons e l ih =>
    obtain ⟨k, v⟩ := e
    by_cases hk : k = p
    · have hf : (k != p) = false := by simpa using hk
      rw [List.filter_cons_of_neg (by simpa using hk)]
      exact ih
    · have hb : (p == k) = false := by simpa using fun hpk : p = k => hk hpk.symm
      rw [List.filter_cons_of_pos (by simpa using hk)]
      simp only [List.lookup, hb]
      exact ih

theorem lookup_filter_ne (l : List (Ptr × List Byte)) {p q : Ptr} (hq : q ≠ p) :
    (l.filter fun e => e.1 != p).lookup q = l.lookup q := by
  induction l with
  | nil => rfl
  | cons e l ih =>
    obtain ⟨k, v⟩ := e
    by_cases hk : k = p
    · have hb : (q == k) = false := by simpa [hk] using hq
      rw [List.filter_cons_of_neg (by simpa using hk)]
      simp only [List.lookup, hb]
      exact ih
    · rw [List.filter_cons_of_pos (by simpa using hk)]
      cases hqk : q == k
      · simp only [List.lookup, hqk]
        exact ih
      · simp only [List.lookup, hqk]

theorem Heap.lookup_release_same (h : Heap) (p : Ptr) : (h.release p).lookup p = none :=
  lookup_filter_same h.blocks p

theorem Heap.lookup_release_ne (h : Heap) {p q : Ptr} (hq : q ≠ p) :
    (h.release p).lookup q = h.lookup q :=
  lookup_filter_ne h.blocks hq

/-! ## `HelloWorld` and `FreeString` -/

theorem message_size : (goBytes message).length + 1 = 22 := by decide

theorem HelloWorld_ok (malloc : Allocator) (h : Heap) (hm : malloc h 22 ≠ NULL) :
    HelloWorld malloc h = .ok (malloc h 22, h.store (malloc h 22) (goBytes message ++ [0])) := by
  simp [HelloWorld, CString, cgoMalloc, message_size, hm]

theorem HelloWorld_null (malloc : Allocator) (h : Heap) (hm : malloc h 22 = NULL) :
    HelloWorld malloc h = .error .mallocFailed := by
  simp [HelloWorld, CString, cgoMalloc, message_size, hm]

theorem HelloWorld_inv {malloc : Allocator} {h h1 : Heap} {p : Ptr}
    (hr : HelloWorld malloc h = .ok (p, h1)) :
    malloc h 22 ≠ NULL ∧ p = malloc h 22 ∧ h1 = h.store p (goBytes message ++ [0]) := by
  by_cases hm : malloc h 22 = NULL
  · rw [HelloWorld_null malloc h hm] at hr
    cases hr
  · rw [HelloWorld_ok malloc h hm] at hr
    cases hr
    exact ⟨hm, rfl, rfl⟩

theorem readCString_of_lookup {h : Heap} {p : Ptr}
    (hl : h.lookup p = some (goBytes message ++ [0])) :
    h.readCString p = some (goBytes message) := by
  rw [Heap.readCString, hl]
  decide

theorem FreeString_live {h : Heap} {p : Ptr} (hp : p ≠ NULL) (hl : h.live p = true) :
    FreeString p h = .ok (h.release p) := by
  simp [FreeString, free, hp, hl]

theorem FreeString_inv {h h1 : Heap} {q : Ptr} (hr : FreeString q h = .ok h1) :
    h1 = h ∨ h1 = h.release q := by
  unfold FreeString free at hr
  split at hr
  · cases hr
    exact Or.inl rfl
  · split at hr
    · cases hr
      exact Or.inr rfl
    · cases hr

theorem Unreleased.holds {malloc : Allocator} {p : Ptr} {h : Heap}
    (hc : MallocContract malloc) (hu : Unreleased malloc p h) :
    p ≠ NULL ∧ h.lookup p = some (goBytes message ++ [0]) := by
  induction hu with
  | returned hr =>
    obtain ⟨hm, hp, hh⟩ := HelloWorld_inv hr
    subst hh
    exact ⟨hp ▸ hm, Heap.lookup_store_same _ _ _⟩
  | @hello h0 h1 q _ hr ih =>
    obtain ⟨hm, hq, hh⟩ := HelloWorld_inv hr
    subst hh
    refine ⟨ih.1, ?_⟩
    have hfresh := hc _ _ hm
    rw [← hq] at hfresh
    have hne : p ≠ q := by
      intro hpq
      rw [← hpq, Heap.live, ih.2] at hfresh
      cases hfresh
    rw [Heap.lookup_store_ne _ _ hne]
    exact ih.2
  | freeOther _ hne hr ih =>
    refine ⟨ih.1, ?_⟩
    rcases FreeString_inv hr with hh | hh
    · rw [hh]
      exact ih.2
    · rw [hh, Heap.lookup_release_ne _ (Ne.symm hne)]
      exact ih.2

theorem bumpMalloc_gt (l : List (Nat × List Nat)) (e : Nat × List Nat) (he : e ∈ l) :
    e.1 < (l.map fun e => e.1 + e.2.length).foldr max 0 + 1 := by
  induction l with
  | nil => cases he
  | cons x l ih =>
    simp only [List.map_cons, List.foldr_cons]
    rcases List.mem_cons.mp he with hx | hx
    · subst hx
      exact Nat.lt_succ_of_le (Nat.le_trans (Nat.le_add_right _ _) (Nat.le_max_left _ _))
    · exact Nat.lt_of_lt_of_le (ih hx) (Nat.succ_le_succ (Nat.le_max_right _ _))

theorem lookup_none_of_forall_ne (l : List (Ptr × List Byte)) (p : Ptr)
    (hp : ∀ e ∈ l, e.1 ≠ p) : l.lookup p = none := by
  induction l with
  | nil => rfl
  | cons x l ih =>
    obtain ⟨k, v⟩ := x
    have hk : k ≠ p := hp (k, v) (List.mem_cons_self _ _)
    have hb : (p == k) = false := by simpa using fun hpk : p = k => hk hpk.symm
    simp only [List.lookup, hb]
    exact ih fun e he => hp e (List.mem_cons_of_mem _ he)

theorem bumpMalloc_contract : MallocContract bumpMalloc := by
  intro h n _
  have hl : h.blocks.lookup (bumpMalloc h n) = none := by
    apply lookup_none_of_forall_ne
    intro e he heq
    have hlt : e.1 < bumpMalloc h n := bumpMalloc_gt h.blocks e he
    rw [heq] at hlt
    exact Nat.lt_irrefl _ hlt
  simp [Heap.live, Heap.lookup, hl]
theorem live_of_lookup {h : Heap} {p : Ptr} {bs : List Byte} (hl : h.lookup p = some bs) :
    h.live p = true := by
  simp [Heap.live, hl]

theorem not_live_of_lookup {h : Heap} {p : Ptr} (hl : h.lookup p = none) :
    h.live p = false := by
  simp [Heap.live, hl]

/-! ## The claims -/

/-- C1. For every pair of 32-bit signed integers `a` and `b`, overflowing or
not, `AddNumbers a b` is the two's-complement wrap of the mathematical sum,
`((a + b + 2^31) mod 2^32) - 2^31`; in particular
`AddNumbers 2147483647 1 = -2147483648`. -/
theorem AddNumbers_wraps :
    (∀ a b : CInt, (AddNumbers a b).val = (a.val + b.val + 2 ^ 31) % 2 ^ 32 - 2 ^ 31) ∧
    (AddNumbers ⟨2147483647, by decide, by decide⟩ ⟨1, by decide, by decide⟩).val
      = -2147483648 := by
  refine ⟨fun a b => ?_, by decide⟩
  rw [AddNumbers_val]
  norm_num

/-- C2. For every pair of 32-bit signed integers whose mathematical sum lies
in `[-2^31, 2^31 - 1]`, `AddNumbers a b` is the exact integer sum. -/
theorem AddNumbers_exact (a b : CInt)
    (hlo : -2 ^ 31 ≤ a.val + b.val) (hhi : a.val + b.val ≤ 2 ^ 31 - 1) :
    (AddNumbers a b).val = a.val + b.val := by
  rw [AddNumbers_val]
  norm_num at hlo hhi
  omega

theorem AddNumbers_exact_witness :
    (-2 ^ 31 ≤ (-5 : Int) + 3 ∧ (-5 : Int) + 3 ≤ 2 ^ 31 - 1) ∧
    (AddNumbers ⟨-5, by decide, by decide⟩ ⟨3, by decide, by decide⟩).val = -5 + 3 :=
  ⟨⟨by decide, by decide⟩,
    AddNumbers_exact ⟨-5, by decide, by decide⟩ ⟨3, by decide, by decide⟩
      (by decide) (by decide)⟩

/-- C3. In any heap state in which the allocator provides the 22 bytes,
`HelloWorld` returns a buffer that, read as a C string (the bytes before
the first zero byte), is exactly the text "Hello, world from Go!". -/
theorem HelloWorld_text (malloc : Allocator) (h : Heap) (hm : malloc h 22 ≠ NULL) :
    ∃ p h1, HelloWorld malloc h = .ok (p, h1) ∧
      h1.readCString p = some (goBytes "Hello, world from Go!") ∧
      (h1.readCString p).map asciiText = some "Hello, world from Go!" := by
  refine ⟨_, _, HelloWorld_ok malloc h hm, ?_, ?_⟩
  · exact readCString_of_lookup (Heap.lookup_store_same _ _ _)
  · rw [readCString_of_lookup (Heap.lookup_store_same _ _ _)]
    decide

theorem HelloWorld_text_witness :
    bumpMalloc Heap.empty 22 ≠ NULL ∧
    ∃ p h1, HelloWorld bumpMalloc Heap.empty = .ok (p, h1) ∧
      h1.readCString p = some (goBytes "Hello, world from Go!") ∧
      (h1.readCString p).map asciiText = some "Hello, world from Go!" :=
  ⟨by decide, HelloWorld_text bumpMalloc Heap.empty (by decide)⟩

/-- C4. The buffer `HelloWorld` allocates is sized to the message plus
terminator: the allocator is asked for 22 bytes, the buffer is exactly 22
bytes long, its first 21 bytes are the bytes of "Hello, world from Go!",
none of them zero, and its last byte, at index 21, is zero. -/
theorem HelloWorld_buffer (malloc : Allocator) (h : Heap) (hm : malloc h 22 ≠ NULL) :
    ∃ h1 buf, HelloWorld malloc h = .ok (malloc h 22, h1) ∧
      h1.lookup (malloc h 22) = some buf ∧
      buf.length = 22 ∧
      buf.take 21 = goBytes "Hello, world from Go!" ∧
      (∀ b ∈ buf.take 21, b ≠ 0) ∧
      buf[21]? = some 0 := by
  refine ⟨_, _, HelloWorld_ok malloc h hm, Heap.lookup_store_same _ _ _, ?_, ?_, ?_, ?_⟩
  · decide
  · decide
  · decide
  · decide

theorem HelloWorld_buffer_witness :
    bumpMalloc Heap.empty 22 ≠ NULL ∧
    ∃ h1 buf, HelloWorld bumpMalloc Heap.empty = .ok (bumpMalloc Heap.empty 22, h1) ∧
      h1.lookup (bumpMalloc Heap.empty 22) = some buf ∧
      buf.length = 22 ∧
      buf.take 21 = goBytes "Hello, world from Go!" ∧
      (∀ b ∈ buf.take 21, b ≠ 0) ∧
      buf[21]? = some 0 :=
  ⟨by decide, HelloWorld_buffer bumpMalloc Heap.empty (by decide)⟩

/-- C5. `FreeString` on the null pointer is a no-op: for every heap state
the call succeeds and the state after it equals the state before. -/
theorem FreeString_null (h : Heap) : FreeString NULL h = .ok h := by
  simp [FreeString, free]
/-- C6. Two successive calls to `HelloWorld`, with no `FreeString` between
them, return two different pointers to two distinct live allocations that
hold the same text; after `FreeString` on either of them the other is
still live and still holds "Hello, world from Go!". The allocator is
assumed to keep its contract and to provide memory for both calls. -/
theorem HelloWorld_twice (malloc : Allocator) (h : Heap)
    (hc : MallocContract malloc)
    (hm : malloc h 22 ≠ NULL)
    (hm2 : ∀ p1 h1, HelloWorld malloc h = .ok (p1, h1) → malloc h1 22 ≠ NULL) :
    ∃ p1 h1 p2 h2,
      HelloWorld malloc h = .ok (p1, h1) ∧ HelloWorld malloc h1 = .ok (p2, h2) ∧
      p1 ≠ p2 ∧ h2.live p1 = true ∧ h2.live p2 = true ∧
      h2.readCString p1 = some (goBytes "Hello, world from Go!") ∧
      h2.readCString p2 = some (goBytes "Hello, world from Go!") ∧
      (∃ h3, FreeString p1 h2 = .ok h3 ∧ h3.live p1 = false ∧ h3.live p2 = true ∧
        h3.readCString p2 = some (goBytes "Hello, world from Go!")) ∧
      (∃ h3, FreeString p2 h2 = .ok h3 ∧ h3.live p2 = false ∧ h3.live p1 = true ∧
        h3.readCString p1 = some (goBytes "Hello, world from Go!")) := by
  have hr1 := HelloWorld_ok malloc h hm
  have hm2 := hm2 _ _ hr1
  have hr2 := HelloWorld_ok malloc _ hm2
  have hfresh := hc _ _ hm2
  generalize malloc h 22 = p1 at hm hr1 hm2 hr2 hfresh
  generalize hh1 : h.store p1 (goBytes message ++ [0]) = h1 at hr1 hm2 hr2 hfresh
  have hl1 : h1.lookup p1 = some (goBytes message ++ [0]) := by
    rw [← hh1]
    exact Heap.lookup_store_same _ _ _
  generalize malloc h1 22 = p2 at hm2 hr2 hfresh
  have hne : p1 ≠ p2 := by
    intro he
    rw [← he, live_of_lookup hl1] at hfresh
    cases hfresh
  have hl21 : (h1.store p2 (goBytes message ++ [0])).lookup p1
      = some (goBytes message ++ [0]) := by
    rw [Heap.lookup_store_ne _ _ hne]
    exact hl1
  have hl22 : (h1.store p2 (goBytes message ++ [0])).lookup p2
      = some (goBytes message ++ [0]) := Heap.lookup_store_same _ _ _
  refine ⟨p1, h1, p2, _, hr1, hr2, hne, live_of_lookup hl21, live_of_lookup hl22,
    readCString_of_lookup hl21, readCString_of_lookup hl22, ?_, ?_⟩
  · have hl3 : ((h1.store p2 (goBytes message ++ [0])).release p1).lookup p2
        = some (goBytes message ++ [0]) := by
      rw [Heap.lookup_release_ne _ (Ne.symm hne)]
      exact hl22
    exact ⟨_, FreeString_live hm (live_of_lookup hl21),
      not_live_of_lookup (Heap.lookup_release_same _ _), live_of_lookup hl3,
      readCString_of_lookup hl3⟩
  · have hl3 : ((h1.store p2 (goBytes message ++ [0])).release p2).lookup p1
        = some (goBytes message ++ [0]) := by
      rw [Heap.lookup_release_ne _ hne]
      exact hl21
    exact ⟨_, FreeString_live hm2 (live_of_lookup hl22),
      not_live_of_lookup (Heap.lookup_release_same _ _), live_of_lookup hl3,
      readCString_of_lookup hl3⟩

theorem HelloWorld_twice_witness :
    MallocContract bumpMalloc ∧ bumpMalloc Heap.empty 22 ≠ NULL ∧
    ∃ p1 h1 p2 h2,
      HelloWorld bumpMalloc Heap.empty = .ok (p1, h1) ∧
      HelloWorld bumpMalloc h1 = .ok (p2, h2) ∧
      p1 ≠ p2 ∧ h2.live p1 = true ∧ h2.live p2 = true ∧
      h2.readCString p1 = some (goBytes "Hello, world from Go!") ∧
      h2.readCString p2 = some (goBytes "Hello, world from Go!") ∧
      (∃ h3, FreeString p1 h2 = .ok h3 ∧ h3.live p1 = false ∧ h3.live p2 = true ∧
        h3.readCString p2 = some (goBytes "Hello, world from Go!")) ∧
      (∃ h3, FreeString p2 h2 = .ok h3 ∧ h3.live p2 = false ∧ h3.live p1 = true ∧
        h3.readCString p1 = some (goBytes "Hello, world from Go!")) :=
  ⟨bumpMalloc_contract, by decide,
    HelloWorld_twice bumpMalloc Heap.empty bumpMalloc_contract (by decide)
      (fun _ h1 _ => Nat.succ_ne_zero _)⟩

/-- C7. For every heap state and every pointer `p` returned by
`HelloWorld` and not yet released, `FreeString p` called once succeeds,
releases exactly the allocation at `p` (live before, not live after) and
leaves every other allocation, its liveness and its contents, unchanged. -/
theorem FreeString_releases_only (malloc : Allocator) (p : Ptr) (h : Heap)
    (hc : MallocContract malloc) (hu : Unreleased malloc p h) :
    h.live p = true ∧
    ∃ h1, FreeString p h = .ok h1 ∧ h1.live p = false ∧
      ∀ q, q ≠ p → h1.lookup q = h.lookup q ∧ h1.live q = h.live q := by
  obtain ⟨hp, hl⟩ := hu.holds hc
  refine ⟨live_of_lookup hl, _, FreeString_live hp (live_of_lookup hl),
    not_live_of_lookup (Heap.lookup_release_same _ _), fun q hq => ?_⟩
  have hq1 := Heap.lookup_release_ne h hq
  exact ⟨hq1, by simp only [Heap.live, hq1]⟩

theorem FreeString_releases_only_witness :
    MallocContract bumpMalloc ∧
    Unreleased bumpMalloc 24
      ⟨[(24, goBytes message ++ [0]), (1, goBytes message ++ [0])]⟩ ∧
    (Heap.mk [(24, goBytes message ++ [0]), (1, goBytes message ++ [0])]).live 24 = true ∧
    ∃ h1, FreeString 24 ⟨[(24, goBytes message ++ [0]), (1, goBytes message ++ [0])]⟩
        = .ok h1 ∧ h1.live 24 = false ∧
      ∀ q, q ≠ 24 →
        h1.lookup q
          = (Heap.mk [(24, goBytes message ++ [0]), (1, goBytes message ++ [0])]).lookup q ∧
        h1.live q
          = (Heap.mk [(24, goBytes message ++ [0]), (1, goBytes message ++ [0])]).live q :=
  have hu : Unreleased bumpMalloc 24
      ⟨[(24, goBytes message ++ [0]), (1, goBytes message ++ [0])]⟩ :=
    @Unreleased.returned bumpMalloc 24 ⟨[(1, goBytes message ++ [0])]⟩ _ (by rfl)
  ⟨bumpMalloc_contract, hu,
    FreeString_releases_only bumpMalloc 24 _ bumpMalloc_contract hu⟩

/-- C8. `HelloWorld` has no error path: it takes no input and, in every
heap state in which the allocator provides the memory, it yields a
non-null, live text buffer holding the greeting. It never hands the host
a null pointer or an error value: whatever it returns is such a buffer,
and a failed allocation ends in the abort of the runtime, the only fault
there is. -/
theorem HelloWorld_no_error_path (malloc : Allocator) (h : Heap) :
    (malloc h 22 ≠ NULL →
      ∃ p h1, HelloWorld malloc h = .ok (p, h1) ∧ p ≠ NULL ∧ h1.live p = true ∧
        h1.readCString p = some (goBytes "Hello, world from Go!")) ∧
    (malloc h 22 = NULL → HelloWorld malloc h = .error .mallocFailed) ∧
    (∀ p h1, HelloWorld malloc h = .ok (p, h1) →
      p ≠ NULL ∧ h1.live p = true ∧
        h1.readCString p = some (goBytes "Hello, world from Go!")) ∧
    (∀ e, HelloWorld malloc h = .error e → e = .mallocFailed ∧ malloc h 22 = NULL) := by
  refine ⟨fun hm => ?_, HelloWorld_null malloc h, fun p h1 hr => ?_, fun e he => ?_⟩
  · exact ⟨_, _, HelloWorld_ok malloc h hm, hm,
      live_of_lookup (Heap.lookup_store_same _ _ _),
      readCString_of_lookup (Heap.lookup_store_same _ _ _)⟩
  · obtain ⟨hm, hp, hh⟩ := HelloWorld_inv hr
    subst hh
    exact ⟨hp ▸ hm, live_of_lookup (Heap.lookup_store_same _ _ _),
      readCString_of_lookup (Heap.lookup_store_same _ _ _)⟩
  · by_cases hm : malloc h 22 = NULL
    · rw [HelloWorld_null malloc h hm] at he
      cases he
      exact ⟨rfl, hm⟩
    · rw [HelloWorld_ok malloc h hm] at he
      cases he

theorem HelloWorld_no_error_path_witness :
    (bumpMalloc Heap.empty 22 ≠ NULL ∧
      ∃ p h1, HelloWorld bumpMalloc Heap.empty = .ok (p, h1) ∧ p ≠ NULL ∧
        h1.live p = true ∧
        h1.readCString p = some (goBytes "Hello, world from Go!")) ∧
    (noMemory Heap.empty 22 = NULL ∧
      HelloWorld noMemory Heap.empty = .error .mallocFailed) :=
  ⟨⟨by decide, (HelloWorld_no_error_path bumpMalloc Heap.empty).1 (by decide)⟩,
    ⟨by decide, (HelloWorld_no_error_path noMemory Heap.empty).2.1 (by decide)⟩⟩

/-! ## Schedules of calls -/

theorem ptrOf_cons_same (vars : List (Nat × Ptr)) (x : Nat) (p : Ptr) :
    ptrOf ((x, p) :: vars) x = p := by
  simp [ptrOf, List.lookup]

theorem ptrOf_cons_ne (vars : List (Nat × Ptr)) {x z : Nat} (p : Ptr) (hz : z ≠ x) :
    ptrOf ((x, p) :: vars) z = ptrOf vars z := by
  have hb : (z == x) = false := by simpa using hz
  simp [ptrOf, List.lookup, hb]

theorem mem_filter_ne {owned : List Nat} {x z : Nat}
    (hz : z ∈ owned.filter fun y => y != x) : z ∈ owned ∧ z ≠ x := by
  rw [List.mem_filter] at hz
  exact ⟨hz.1, by simpa using hz.2⟩

theorem call_helloWorld (malloc : Allocator) (w : Host) (x : Nat)
    (hm : malloc w.heap 22 ≠ NULL) :
    call malloc w (.helloWorld x)
      = .ok (.buffer true (some (goBytes message)),
          ⟨w.heap.store (malloc w.heap 22) (goBytes message ++ [0]),
            (x, malloc w.heap 22) :: w.vars⟩) := by
  have ht : (malloc w.heap 22 != NULL) = true := by simpa using hm
  simp only [call, HelloWorld_ok malloc w.heap hm, ht,
    readCString_of_lookup (Heap.lookup_store_same _ _ _)]

theorem call_freeString (malloc : Allocator) (w : Host) (x : Nat)
    (hp : ptrOf w.vars x ≠ NULL) (hl : w.heap.live (ptrOf w.vars x) = true) :
    call malloc w (.freeString x)
      = .ok (.released, ⟨w.heap.release (ptrOf w.vars x), w.vars⟩) := by
  simp only [call, FreeString_live hp hl]

theorem alone_helloWorld (malloc : Allocator) (h : Heap) (x : Nat)
    (hm : malloc h 22 ≠ NULL) :
    alone malloc h (.helloWorld x) = .ok (.buffer true (some (goBytes message))) := by
  simp only [alone, call_helloWorld malloc ⟨h, []⟩ x hm, resultOf]

theorem alone_freeString (malloc : Allocator) (h : Heap) (x : Nat)
    (hm : malloc h 22 ≠ NULL) :
    alone malloc h (.freeString x) = .ok .released := by
  simp only [alone, call_helloWorld malloc ⟨h, []⟩ x hm]
  rw [call_freeString]
  · rfl
  · rw [ptrOf_cons_same]
    exact hm
  · rw [ptrOf_cons_same]
    exact live_of_lookup (Heap.lookup_store_same _ _ _)

theorem alone_addNumbers (malloc : Allocator) (h : Heap) (a b : CInt) :
    alone malloc h (.addNumbers a b) = .ok (.sum (AddNumbers a b)) := rfl

theorem Owns.helloWorld {malloc : Allocator} {h : Heap} {vars : List (Nat × Ptr)}
    {owned : List Nat} (hc : MallocContract malloc) (hm : malloc h 22 ≠ NULL)
    (ho : Owns h vars owned) (x : Nat) :
    Owns (h.store (malloc h 22) (goBytes message ++ [0])) ((x, malloc h 22) :: vars)
      (x :: owned.filter fun y => y != x) := by
  have hfresh := hc h 22 hm
  generalize malloc h 22 = p at hm hfresh
  have hold : ∀ z, z ∈ (owned.filter fun y => y != x) →
      ptrOf ((x, p) :: vars) z = ptrOf vars z ∧ ptrOf vars z ≠ p ∧ z ∈ owned := by
    intro z hz
    obtain ⟨hzo, hzx⟩ := mem_filter_ne hz
    refine ⟨ptrOf_cons_ne vars p hzx, fun he => ?_, hzo⟩
    have hl := live_of_lookup (ho.1 z hzo).2
    rw [he, hfresh] at hl
    cases hl
  constructor
  · intro z hz
    rcases List.mem_cons.mp hz with hzx | hzf
    · subst hzx
      rw [ptrOf_cons_same]
      exact ⟨hm, Heap.lookup_store_same _ _ _⟩
    · obtain ⟨h1, h2, h3⟩ := hold z hzf
      rw [h1, Heap.lookup_store_ne _ _ h2]
      exact ho.1 z h3
  · intro z hz y hy he
    rcases List.mem_cons.mp hz with hzx | hzf
    · rcases List.mem_cons.mp hy with hyx | hyf
      · rw [hzx, hyx]
      · obtain ⟨h1, h2, _⟩ := hold y hyf
        rw [hzx, ptrOf_cons_same, h1] at he
        exact absurd he.symm h2
    · obtain ⟨h1, h2, h3⟩ := hold z hzf
      rcases List.mem_cons.mp hy with hyx | hyf
      · rw [hyx, ptrOf_cons_same, h1] at he
        exact absurd he h2
      · obtain ⟨k1, _, k3⟩ := hold y hyf
        rw [h1, k1] at he
        exact ho.2 z h3 y k3 he

theorem Owns.freeString {h : Heap} {vars : List (Nat × Ptr)} {owned : List Nat}
    (ho : Owns h vars owned) {x : Nat} (hx : x ∈ owned) :
    Owns (h.release (ptrOf vars x)) vars (owned.filter fun y => y != x) := by
  constructor
  · intro z hz
    obtain ⟨hzo, hzx⟩ := mem_filter_ne hz
    have hne : ptrOf vars z ≠ ptrOf vars x := fun he => hzx (ho.2 z hzo x hx he)
    rw [Heap.lookup_release_ne _ hne]
    exact ho.1 z hzo
  · intro z hz y hy he
    exact ho.2 z (mem_filter_ne hz).1 y (mem_filter_ne hy).1 he

theorem run_owned (malloc : Allocator) (hc : MallocContract malloc)
    (hs : ∀ h, malloc h 22 ≠ NULL) (ha : Heap) :
    ∀ (cs : List Call) (w : Host) (owned : List Nat),
      Owns w.heap w.vars owned → scheduleOk owned cs = true →
      ∃ rs, run malloc w cs = .ok rs ∧
        List.Forall₂ (fun c r => alone malloc ha c = .ok r) cs rs := by
  intro cs
  induction cs with
  | nil =>
    intro w owned _ _
    exact ⟨[], rfl, List.Forall₂.nil⟩
  | cons c cs ih =>
    intro w owned ho hok
    cases c with
    | helloWorld x =>
      simp only [scheduleOk] at hok
      obtain ⟨rs, hrun, hall⟩ :=
        ih (Host.mk (w.heap.store (malloc w.heap 22) (goBytes message ++ [0]))
          ((x, malloc w.heap 22) :: w.vars)) _ (ho.helloWorld hc (hs w.heap) x) hok
      refine ⟨_ :: rs, ?_, List.Forall₂.cons (alone_helloWorld malloc ha x (hs ha)) hall⟩
      simp only [run, call_helloWorld malloc w x (hs w.heap), hrun]
    | freeString x =>
      simp only [scheduleOk, Bool.and_eq_true] at hok
      obtain ⟨hx, hok⟩ := hok
      have hx : x ∈ owned := by simpa using hx
      obtain ⟨hp, hl⟩ := ho.1 x hx
      obtain ⟨rs, hrun, hall⟩ :=
        ih (Host.mk (w.heap.release (ptrOf w.vars x)) w.vars) _ (ho.freeString hx) hok
      refine ⟨_ :: rs, ?_, List.Forall₂.cons (alone_freeString malloc ha x (hs ha)) hall⟩
      simp only [run, call_freeString malloc w x hp (live_of_lookup hl), hrun]
    | addNumbers a b =>
      simp only [scheduleOk] at hok
      obtain ⟨rs, hrun, hall⟩ := ih w owned ho hok
      refine ⟨_ :: rs, ?_, List.Forall₂.cons (alone_addNumbers malloc ha a b) hall⟩
      simp only [run, call, hrun]

/-- C9. Calls to `HelloWorld`, `FreeString` and `AddNumbers` made from
several threads are independently safe: in whatever order the calls take
effect, as long as each `FreeString` is on a buffer of an earlier
`HelloWorld` that has not been released, no call faults and each call
gives the result it gives when run alone. The allocator is assumed to keep
its contract and to provide the memory; calls take effect one at a time. -/
theorem calls_independent (malloc : Allocator) (h0 ha : Heap) (cs : List Call)
    (hc : MallocContract malloc) (hs : ∀ h, malloc h 22 ≠ NULL)
    (hok : scheduleOk [] cs = true) :
    ∃ rs, run malloc ⟨h0, []⟩ cs = .ok rs ∧
      List.Forall₂ (fun c r => alone malloc ha c = .ok r) cs rs := by
  refine run_owned malloc hc hs ha cs ⟨h0, []⟩ [] ⟨?_, ?_⟩ hok
  · intro x hx
    cases hx
  · intro x hx
    cases hx

theorem calls_independent_witness :
    MallocContract bumpMalloc ∧ (∀ h, bumpMalloc h 22 ≠ NULL) ∧
    scheduleOk []
      [.helloWorld 0, .helloWorld 1,
        .addNumbers ⟨2147483647, by decide, by decide⟩ ⟨1, by decide, by decide⟩,
        .freeString 0, .helloWorld 2, .freeString 2, .freeString 1] = true ∧
    ∃ rs, run bumpMalloc ⟨Heap.empty, []⟩
        [.helloWorld 0, .helloWorld 1,
          .addNumbers ⟨2147483647, by decide, by decide⟩ ⟨1, by decide, by decide⟩,
          .freeString 0, .helloWorld 2, .freeString 2, .freeString 1] = .ok rs ∧
      List.Forall₂ (fun c r => alone bumpMalloc Heap.empty c = .ok r)
        [.helloWorld 0, .helloWorld 1,
          .addNumbers ⟨2147483647, by decide, by decide⟩ ⟨1, by decide, by decide⟩,
          .freeString 0, .helloWorld 2, .freeString 2, .freeString 1] rs :=
  ⟨bumpMalloc_contract, fun _ => Nat.succ_ne_zero _, by decide,
    calls_independent bumpMalloc Heap.empty Heap.empty _ bumpMalloc_contract
      (fun _ => Nat.succ_ne_zero _) (by decide)⟩

/-- C10. `AddNumbers` is associative over all 32-bit signed integers, also
when an intermediate sum overflows; hence a chain of calls summing several
numbers gives the same result under every grouping of the same operands. -/
theorem AddNumbers_associative :
    (∀ a b c : CInt, AddNumbers (AddNumbers a b) c = AddNumbers a (AddNumbers b c)) ∧
    ∀ t1 t2 : Grouping, t1.operands = t2.operands → t1.eval = t2.eval := by
  refine ⟨AddNumbers_assoc, fun t1 t2 ht => ?_⟩
  rw [Grouping.eval_eq_sumRight, Grouping.eval_eq_sumRight, ht]

theorem AddNumbers_associative_witness :
    (Grouping.node (.node (.leaf ⟨2147483647, by decide, by decide⟩)
        (.leaf ⟨1, by decide, by decide⟩)) (.leaf ⟨-1, by decide, by decide⟩)).operands
      = (Grouping.node (.leaf ⟨2147483647, by decide, by decide⟩)
        (.node (.leaf ⟨1, by decide, by decide⟩) (.leaf ⟨-1, by decide, by decide⟩))).operands ∧
    (Grouping.node (.node (.leaf ⟨2147483647, by decide, by decide⟩)
        (.leaf ⟨1, by decide, by decide⟩)) (.leaf ⟨-1, by decide, by decide⟩)).eval
      = (Grouping.node (.leaf ⟨2147483647, by decide, by decide⟩)
        (.node (.leaf ⟨1, by decide, by decide⟩) (.leaf ⟨-1, by decide, by decide⟩))).eval :=
  ⟨rfl, AddNumbers_associative.2 _ _ rfl⟩

end GoLibrary
